import Mathlib

namespace Shabanipy

/-!
Verification of the shabanipy analysis scripts against their specification.

The development embeds, in Lean:
* `shabanipy/constants.py` — the magnet-coil amps-per-tesla constants table and
  the composite-key lookup used by `scripts/squid/fit_squid_oscillations.py`;
* the configuration-driven dataset enumeration and per-dataset key overrides of
  `scripts/jj/fraunhofer/inplane.py`;
* the dV/dI branch selection of `scripts/jj/fraunhofer/inplane.py`;
* the fridge sign-convention correction, the output-artifact trace and the fit
  parameter bounds of `scripts/squid/fit_squid_oscillations.py`;
* the demonstration sweep of `scripts/squid/plot_squid_current.py` together with
  the CPR / two-junction SQUID model it calls (the model implementation is not
  part of the supplied source and is modelled from the specification);
* the degree-1 least-squares fit (`np.polyfit(x, y, 1)`) and misalignment-angle
  annotation of the `--align` branch of `inplane.py`.

Numeric code is embedded over exact fields (ℚ for the constants table, ℝ for
the analysis pipelines); Python strings are embedded as Lean `String`s, with
`str.upper()` and `str.endswith` given explicit character-list definitions so
that they evaluate by kernel reduction.
-/

/-! ## Python string primitives -/

/-- Python `str.upper()` for the ASCII strings used in the configs
(`config['FRIDGE'].upper()`, `config['PERP_AXIS'].upper()`). -/
def pyUpper (s : String) : String := ⟨s.data.map Char.toUpper⟩

/-- Python `str.endswith(suffix)`. -/
def pyEndsWith (s suffix : String) : Bool := suffix.data.isSuffixOf s.data

/-! ## `shabanipy/constants.py`

The module body is seven float assignments; `fit_squid_oscillations.py` reads
them with `getattr(import_module("shabanipy.constants"), key)`, which raises
`AttributeError` (a NotFound condition) for any other name.  The table is
embedded as an association list of attribute names to exact rational values. -/

/-- The seven module-level constants of `shabanipy/constants.py` (amps per tesla). -/
def ampsPerTeslaConstants : List (String × ℚ) :=
  [("FOURTEEN_TESLA_AMPS_PER_TESLA", 8.341),
   ("VECTOR9_AMPS_PER_TESLA_X", 35.705),
   ("VECTOR9_AMPS_PER_TESLA_Y", 72.575),
   ("VECTOR9_AMPS_PER_TESLA_Z", 18.203),
   ("VECTOR10_AMPS_PER_TESLA_X", 35.927),
   ("VECTOR10_AMPS_PER_TESLA_Y", 74.548),
   ("VECTOR10_AMPS_PER_TESLA_Z", 18.0110)]

/-- Attribute lookup in an association list (first match wins). -/
def attrLookup : List (String × ℚ) → String → Option ℚ
  | [], _ => none
  | (k, v) :: rest, name => if k = name then some v else attrLookup rest name

/-- Python `getattr(shabanipy.constants, name)`: `some` value, or `none` for
`AttributeError` (NotFound). -/
def getattrConstants (name : String) : Option ℚ := attrLookup ampsPerTeslaConstants name

/-- The composite key built by `fit_squid_oscillations.py` line 97–100:
`f"{config['FRIDGE'].upper()}_AMPS_PER_TESLA_{config['PERP_AXIS'].upper()}"`. -/
def ampsPerTeslaKey (fridge axis : String) : String :=
  pyUpper fridge ++ "_AMPS_PER_TESLA_" ++ pyUpper axis

/-- Lookup of the conversion factor for a (fridge, axis) pair through the
composite key, exactly as the SQUID fitting script performs it. -/
def lookupAmpsPerTesla (fridge axis : String) : Option ℚ :=
  getattrConstants (ampsPerTeslaKey fridge axis)

/-! ## Decimal printing of naturals

`inplane.py` builds the keys `f"DATAPATH{i}"`, `f"CH_BIAS{i}"`, … with Python's
decimal rendering of `i`, embedded as `Nat.repr`.  To reason about the
dataset-enumeration loop we need that distinct indices yield distinct keys,
i.e. that `Nat.repr` is injective; core and Mathlib provide only length bounds,
so injectivity is proved here via a digit-parsing round trip. -/

/-- Decimal digit list of a natural number, most significant digit first; the
structural companion of core's fuelled `Nat.toDigitsCore`. -/
def decDigits (n : ℕ) : List Char :=
  if _h : n < 10 then [Nat.digitChar n]
  else decDigits (n / 10) ++ [Nat.digitChar (n % 10)]
  termination_by n
  decreasing_by exact Nat.div_lt_self (by omega) (by norm_num)

/-- Value of a decimal digit character. -/
def digitVal (c : Char) : ℕ := c.toNat - 48

/-- Parse a digit list back to a natural number (most significant first). -/
def parseDigits (l : List Char) : ℕ := l.foldl (fun a c => 10 * a + digitVal c) 0

/-! ## Configuration sections and the dataset-enumeration loop of `inplane.py`

A configuration section is an association list of string keys to string values
(the post-interpolation view of the `.ini` section).  `inplane.py` enumerates
datasets with

    i = 1
    while config.get(f"DATAPATH{i}"):
        ...
        i += 1

`config.get` returns `None` for a missing key, and Python's `while` tests
truthiness, under which both `None` and the empty string `""` are falsy. -/

/-- A configuration section. -/
abbrev Config := List (String × String)

/-- Lookup `config.get(key)` / `config[key]`; `none` models a missing key. -/
def cfgGet (cfg : Config) (key : String) : Option String :=
  match cfg with
  | [] => none
  | (k, v) :: rest => if k = key then some v else cfgGet rest key

/-- Python truthiness of an optional string: `None` and `""` are falsy. -/
def pyTruthy : Option String → Bool
  | none => false
  | some s => s != ""

/-- The key `f"DATAPATH{i}"`. -/
def dpKey (i : ℕ) : String := "DATAPATH" ++ Nat.repr i

/-- One pass of the `while config.get(f"DATAPATH{i}")` loop, collecting the
enumerated dataset indices.  The recursion is totalized with explicit fuel;
`datasets` below instantiates the fuel with a bound the loop provably never
exhausts (`cfg.length + 1`), since a config with `L` entries cannot have more
than `L` distinct truthy `DATAPATH{i}` keys. -/
def enumDatasets (cfg : Config) : ℕ → ℕ → List ℕ
  | 0, _ => []
  | fuel + 1, i =>
    if pyTruthy (cfgGet cfg (dpKey i)) then i :: enumDatasets cfg fuel (i + 1) else []

/-- The dataset indices enumerated by `inplane.py` (1-indexed). -/
def datasets (cfg : Config) : List ℕ := enumDatasets cfg (cfg.length + 1) 1

/-! ## Per-dataset key overrides (`inplane.py` lines 42–43 and 96) -/

/-- Resolution `config.get(f"{base}{i}", config[base])`, as `inplane.py` resolves
`CH_BIAS`/`CH_MEAS`: Python evaluates the fallback `config[base]` eagerly, so a
missing base key raises `KeyError` (modelled `Except.error base`) even when the
suffixed key is present; otherwise the suffixed key's value is returned when
present (even if empty), else the base key's value. -/
def resolveChannel (cfg : Config) (base : String) (i : ℕ) : Except String String :=
  match cfgGet cfg base with
  | none => Except.error base
  | some bv => Except.ok ((cfgGet cfg (base ++ Nat.repr i)).getD bv)

/-- Resolution `config.getfloat(f"THRESHOLD{i}", config.getfloat("THRESHOLD"))`: the
suffixed key's value is parsed when present, else the base key's value when
present, else `None`.  `parse` abstracts Python float parsing (a value that
fails to parse raises in Python; that failure mode is outside this model). -/
def thresholdFor (cfg : Config) (parse : String → ℚ) (i : ℕ) : Option ℚ :=
  match cfgGet cfg ("THRESHOLD" ++ Nat.repr i) with
  | some v => some (parse v)
  | none => (cfgGet cfg "THRESHOLD").map parse

/-- A config with `DATAPATH1` present but empty, `DATAPATH2` present and
nonempty, and `CH_BIAS1` present while the base `CH_BIAS` is absent. -/
def C3cex : Config := [("DATAPATH1", ""), ("DATAPATH2", "data2.hdf5"), ("CH_BIAS1", "bias1")]

/-- A config exercising every clause of `C3_enumeration_and_overrides`. -/
def C3wit : Config :=
  [("DATAPATH1", "a.hdf5"), ("CH_BIAS", "bias"), ("THRESHOLD", "5"), ("THRESHOLD1", "7")]

/-! ## Output path of the field-alignment figure (`inplane.py` lines 78–79, 110–125) -/

/-- Split a character list on a separator character (Python `str.split(sep)`). -/
def splitChar : List Char → Char → List (List Char)
  | [], _ => [[]]
  | c :: rest, sep =>
    let r := splitChar rest sep
    if c = sep then [] :: r
    else
      match r with
      | [] => [[c]]
      | h :: t => (c :: h) :: t

/-- Index of the last occurrence of `c` in `l` (Python `str.rfind`), `none` if
absent. -/
def rfindIdx (l : List Char) (c : Char) : Option ℕ :=
  ((List.range l.length).filter (fun i => l.getD i ' ' = c)).getLast?

/-- Python `pathlib.Path(p).stem`: the final path component without its suffix, where
the suffix is the part from the last dot `.` provided that dot is neither the
first nor past the last character of the component. -/
def pathStem (p : String) : String :=
  let name := (splitChar p.data '/').getLastD p.data
  match rfindIdx name '.' with
  | some i => if 0 < i ∧ i < name.length - 1 then ⟨name.take i⟩ else ⟨name⟩
  | none => ⟨name⟩

/-- The per-dataset output prefix
`f"output/.stem_inplane=repr"` built at line 79 of `inplane.py`;
`iplRepr datapath` stands for Python's `repr` of the in-plane field value read
from the measurement file at `datapath` (the `{inplane=}` f-string renders
`"inplane=" + repr(inplane)`). -/
def outpathFor (datapath : String) (iplRepr : String → String) : String :=
  "output/" ++ pathStem datapath ++ "_inplane=" ++ iplRepr datapath

/-- The `--align` branch of `inplane.py` (lines 110–125): with no enumerated
dataset, `np.polyfit` is called on empty arrays and raises (and `outpath` is
unbound), so the script terminates before writing anything; otherwise the
figure is saved under the last enumerated dataset's output prefix plus
`"_field-alignment.png"`. -/
def alignArtifact (cfg : Config) (iplRepr : String → String) : Except String String :=
  match (datasets cfg).getLast? with
  | none => Except.error "polyfit: expected non-empty vector for x"
  | some i =>
    Except.ok (outpathFor ((cfgGet cfg (dpKey i)).getD "") iplRepr ++ "_field-alignment.png")

/-- A two-dataset config for the C10 witness. -/
def C10wit : Config := [("DATAPATH1", "dir/a.hdf5"), ("DATAPATH2", "b.hdf5")]

/-! ## dV/dI branch selection (`inplane.py` lines 61–76)

The block is modelled on one sweep line (the numpy operations act elementwise
along the last axis).  `meas` is the raw measurement channel: complex for a
lock-in channel, real values embedded in ℂ for a DC voltmeter channel. -/

/-- numpy `np.gradient` along an axis with unit spacing: one-sided differences at the
two ends, central differences inside.  (numpy raises on arrays of length < 2;
such lists are irrelevant here.) -/
noncomputable def npGradient {α : Type} [Field α] (l : List α) : List α :=
  (List.range l.length).map fun i =>
    if i = 0 then l.getD 1 0 - l.getD 0 0
    else if i = l.length - 1 then l.getD i 0 - l.getD (i - 1) 0
    else (l.getD (i + 1) 0 - l.getD (i - 1) 0) / 2

/-- Output of the dV/dI block: the dV/dI array, its plot label, and the
(possibly rescaled) bias-current array. -/
structure DvdiResult where
  dvdi : List ℂ
  dvdiLabel : String
  ibias : List ℝ

/-- The dV/dI computation of `inplane.py` lines 61–76: channels ending in
`"VI curve"` or `"SingleValue"` are DC voltmeter readings, differentiated
numerically and divided by `DC_AMP_GAIN`; any other channel is a lock-in
reading whose magnitude is taken directly, and if its name ends in `"Value"`
the result is additionally divided by `ibias_ac = outputAmplitude / R_AC_OUT`
while the bias array is divided by `R_DC_OUT`. -/
noncomputable def dvdiCompute (ch_meas : String) (meas : List ℂ) (ibias : List ℝ)
    (dcAmpGain rAcOut rDcOut outputAmplitude : ℝ) : DvdiResult :=
  if pyEndsWith ch_meas "VI curve" || pyEndsWith ch_meas "SingleValue" then
    { dvdi := (List.zipWith (fun gm gi => gm / gi) (npGradient meas)
        ((npGradient ibias).map (fun x => (x : ℂ)))).map (fun z => z / (dcAmpGain : ℂ)),
      dvdiLabel := "ΔV/ΔΙ (Ω)",
      ibias := ibias }
  else
    let dvdi0 : List ℂ := meas.map (fun z => ((Complex.abs z : ℝ) : ℂ))
    if pyEndsWith ch_meas "Value" then
      let ibias_ac := outputAmplitude / rAcOut
      { dvdi := dvdi0.map (fun z => z / (ibias_ac : ℂ)),
        dvdiLabel := "|dV/dI| (Ω)",
        ibias := ibias.map (fun x => x / rDcOut) }
    else
      { dvdi := dvdi0, dvdiLabel := "|dV/dI| (Ω)", ibias := ibias }

/-- The dV/dI computation as the C4 claim words it (dvdi array, bias array):
gradient ratio over `DC_AMP_GAIN` if the channel name ends with `"VI curve"`
or `"SingleValue"`; otherwise the magnitude `|meas|`, further divided by the
lock-in output amplitude over `R_AC_OUT` — with the bias divided by
`R_DC_OUT` — if the name additionally ends with `"Value"`. -/
noncomputable def dvdiClaimed (ch_meas : String) (meas : List ℂ) (ibias : List ℝ)
    (dcAmpGain rAcOut rDcOut outputAmplitude : ℝ) : List ℂ × List ℝ :=
  if pyEndsWith ch_meas "VI curve" || pyEndsWith ch_meas "SingleValue" then
    ((List.zipWith (fun gm gi => gm / gi) (npGradient meas)
        ((npGradient ibias).map (fun x => (x : ℂ)))).map (fun z => z / (dcAmpGain : ℂ)),
     ibias)
  else if pyEndsWith ch_meas "Value" then
    (meas.map (fun z => ((Complex.abs z : ℝ) : ℂ) / ((outputAmplitude / rAcOut : ℝ) : ℂ)),
     ibias.map (fun x => x / rDcOut))
  else
    (meas.map (fun z => ((Complex.abs z : ℝ) : ℂ)), ibias)

/-! ## Fridge sign-convention correction (`fit_squid_oscillations.py` lines 153–162) -/

/-- Result of the sign-convention block; `warned` records whether the
non-fatal unrecognized-fridge warning was emitted. -/
structure FridgeResult where
  bfield : List ℝ
  ic_p : List ℝ
  ic_n : List ℝ
  warned : Bool

/-- Lines 153–162: for `"vector10"`, `bfield = np.flip(bfield) * -1` and both
Ic branches are flipped; for `"vector9"`, nothing; otherwise warn and leave
all three arrays unchanged. -/
noncomputable def applyFridgeConvention (fridge : String) (bfield ic_p ic_n : List ℝ) : FridgeResult :=
  if fridge = "vector10" then
    { bfield := bfield.reverse.map (fun x => x * (-1)),
      ic_p := ic_p.reverse, ic_n := ic_n.reverse, warned := false }
  else if fridge = "vector9" then
    { bfield := bfield, ic_p := ic_p, ic_n := ic_n, warned := false }
  else
    { bfield := bfield, ic_p := ic_p, ic_n := ic_n, warned := true }

/-! ## Load-time field conversion (`fit_squid_oscillations.py` lines 122–123) -/

/-- Line 123: `bfield = f.get_data(config["CH_FIELD_PERP"]) / AMPS_PER_T` — the
raw channel data (coil current, amps) divided by the conversion factor. -/
noncomputable def bfieldLoaded (raw : List ℝ) (ampsPerT : ℝ) : List ℝ :=
  raw.map (fun x => x / ampsPerT)

/-- The perpendicular-field array as used by everything after the fridge
sign-convention block (estimators, fit, fit plots). -/
noncomputable def bfieldDownstream (fridge : String) (raw : List ℝ) (ampsPerT : ℝ)
    (ic_p ic_n : List ℝ) : List ℝ :=
  (applyFridgeConvention fridge (bfieldLoaded raw ampsPerT) ic_p ic_n).bfield

/-! ## Output-artifact trace of `fit_squid_oscillations.py` -/

/-- The command-line flags of the SQUID fitting script that affect its outputs.
`conf_interval` is whether `--conf-interval` was passed at all. -/
structure SquidArgs where
  both_branches : Bool
  dry_run : Bool
  plot_guess : Bool
  conf_interval : Bool
  emcee : Bool

/-- Parameter set plotted in the fit overlay. -/
inductive OverlayParams
  | bestFit
  | initialGuess
deriving DecidableEq

/-- Line 326: `popt = result.params.valuesdict() if not args.dry_run else params`. -/
def overlayParams (a : SquidArgs) : OverlayParams :=
  if !a.dry_run then OverlayParams.bestFit else OverlayParams.initialGuess

/-- Line 259: the nonlinear optimization runs iff not `--dry-run`. -/
def fitRuns (a : SquidArgs) : Bool := !a.dry_run

/-- The files written by `fit_squid_oscillations.py`, in program order, as
suffixes of the output path prefix `OUTPATH`: the four diagnostic plots
(lines 138, 151, 210, 247); then, unless `--dry-run`, the fit report, the
parameter table and the serialized model result (lines 270–284), plus the
three emcee artifacts when `--emcee` (lines 298, 314, 322); then the fit
overlay plot (line 364); then, unless `--dry-run`, the fit CSV (line 379).
(`--conf-interval` only prints a report; it writes no file.) -/
def squidArtifacts (a : SquidArgs) : List String :=
  ["_raw-data.png", "_ic-extraction.png", "_fft.png", "_bfield-offset.png"]
  ++ (if !a.dry_run then
        ["_fit-report.txt", "_fit-params.txt", "_model-result.json"]
        ++ (if a.emcee then
              ["_mcmc-result.json", "_emcee-acceptance-fraction.png", "_emcee-corner.png"]
            else [])
      else [])
  ++ ["_fit.png"]
  ++ (if !a.dry_run then ["_fit.csv"] else [])

/-! ## CPR model and the transparency bounds
(spec section 4.7; `fit_squid_oscillations.py` lines 169–172)

The CPR library (`shabanipy.squid.cpr`) is not part of the supplied source;
its formula is modelled from spec section 4.7. -/

/-- Modelled from the spec: the denominator
`sqrt(1 − transparency · sin²((φ − φ₀)/2))` of the finite-transparency CPR
formula of section 4.7 (`shabanipy.squid.cpr.finite_transparency_jj_current`,
implementation not in the supplied source). -/
noncomputable def cprDenom (phase anomalous_phase transparency : ℝ) : ℝ :=
  Real.sqrt (1 - transparency * Real.sin ((phase - anomalous_phase) / 2) ^ 2)

/-- Modelled from the spec:
`finite_transparency_jj_current(phase, anomalous_phase, amplitude,
transparency) = amplitude · sin(φ − φ₀) / sqrt(1 − t sin²((φ − φ₀)/2))`
(section 4.7; implementation not in the supplied source). -/
noncomputable def finite_transparency_jj_current
    (phase anomalous_phase amplitude transparency : ℝ) : ℝ :=
  amplitude * Real.sin (phase - anomalous_phase) /
    cprDenom phase anomalous_phase transparency

/-- An lmfit-style parameter bound: initial value and optional inclusive
min/max (lmfit bounds are inclusive — the optimizer may place a parameter at
its `max`). -/
structure ParamSpec where
  value : ℝ
  min? : Option ℝ
  max? : Option ℝ

/-- Line 169: `params["transparency1"].set(value=0.5, max=1)`. -/
noncomputable def transparency1Spec : ParamSpec :=
  { value := 0.5, min? := none, max? := some 1 }

/-- Line 170: `params["transparency2"].set(value=0.5, max=1)`. -/
noncomputable def transparency2Spec : ParamSpec :=
  { value := 0.5, min? := none, max? := some 1 }

/-- A parameter value admissible under a bound specification. -/
def withinBounds (p : ParamSpec) (x : ℝ) : Prop :=
  (match p.min? with | some m => m ≤ x | none => True) ∧
  (match p.max? with | some M => x ≤ M | none => True)

/-! ## List maxima and minima (`np.amax` / `np.amin` on nonempty arrays) -/

/-- numpy `np.amax` of a list of reals (the scripts only apply it to nonempty
arrays; the value on `[]` is irrelevant). -/
noncomputable def listMax : List ℝ → ℝ
  | [] => 0
  | x :: xs => xs.foldl max x

/-- numpy `np.amin` of a list of reals. -/
noncomputable def listMin : List ℝ → ℝ
  | [] => 0
  | x :: xs => xs.foldl min x

/-! ## The SQUID-current demonstration script (`plot_squid_current.py`)

The two-junction model library (`shabanipy.squid.squid_model`) is not part of
the supplied source; `compute_squid_current` is modelled from spec section
4.8 with a dense sampling of the free phase γ over [0, 2π). -/

/-- Literal `FIRST_JUNCTION = (1, 0.)`: (amplitude, transparency) of junction 1. -/
noncomputable def FIRST_JUNCTION : ℝ × ℝ := (1, 0)

/-- Literal `SECOND_JUNCTION_TRANSPARENCIES = [0.0, 0.6, 0.9]`. -/
noncomputable def SECOND_JUNCTION_TRANSPARENCIES : List ℝ := [0.0, 0.6, 0.9]

/-- Literal `SECOND_JUNCTION_AMPLITUDES = [0.1, 0.25, 0.5, 1]`. -/
noncomputable def SECOND_JUNCTION_AMPLITUDES : List ℝ := [0.1, 0.25, 0.5, 1]

/-- Grid `phase_diff = np.linspace(-2*np.pi, 2*np.pi, 1001)`. -/
noncomputable def phaseDiffGrid : List ℝ :=
  (List.range 1001).map (fun (k : ℕ) => -(2 * Real.pi) + (k : ℝ) * (4 * Real.pi / 1000))

/-- Modelled from the spec: the dense γ sampling grid over [0, 2π) used by
`compute_squid_current`'s numeric maximization (section 4.8). -/
noncomputable def gammaGrid : List ℝ :=
  (List.range 100).map (fun (k : ℕ) => 2 * Real.pi * (k : ℝ) / 100)

/-- Modelled from the spec (section 4.8):
`compute_squid_current(phase_diff, cpr1, params1, cpr2, params2)` — the
maximum over the sampled γ of `I₁(γ; params1) + I₂(γ − phase_diff; params2)`,
each CPR called as `cpr(phase, *params)` with
`params = (anomalous_phase, amplitude, transparency)`.  The library
implementation (`shabanipy.squid.squid_model.compute_squid_current`) is not
part of the supplied source. -/
noncomputable def compute_squid_current (phase_diff : ℝ)
    (cpr1 : ℝ → ℝ → ℝ → ℝ → ℝ) (params1 : ℝ × ℝ × ℝ)
    (cpr2 : ℝ → ℝ → ℝ → ℝ → ℝ) (params2 : ℝ × ℝ × ℝ) : ℝ :=
  listMax (gammaGrid.map (fun γ =>
    cpr1 γ params1.1 params1.2.1 params1.2.2 +
    cpr2 (γ - phase_diff) params2.1 params2.2.1 params2.2.2))

/-- The SQUID-current curve computed in the demo loop (lines 35–37):
`compute_squid_current(phase_diff, cpr, (0, *FIRST_JUNCTION), cpr, (0, a, t))`
over the phase-difference grid, for second-junction transparency `t` and
amplitude `a`. -/
noncomputable def squidCurve (t a : ℝ) : List ℝ :=
  phaseDiffGrid.map (fun φ =>
    compute_squid_current φ
      finite_transparency_jj_current (0, FIRST_JUNCTION.1, FIRST_JUNCTION.2)
      finite_transparency_jj_current (0, a, t))

/-- The normalization of lines 38–41: `(squid − baseline)/amplitude` with
`amplitude = amax − amin` and `baseline = (amax + amin)/2`. -/
noncomputable def normalizedCurve (t a : ℝ) : List ℝ :=
  (squidCurve t a).map (fun x =>
    (x - (listMax (squidCurve t a) + listMin (squidCurve t a)) / 2) /
      (listMax (squidCurve t a) - listMin (squidCurve t a)))

/-! ## Field-alignment regression (`inplane.py` lines 110–125)

`np.polyfit(b_inplane, fraun_center, 1)` is the degree-1 least-squares fit,
embedded in its normal-equations closed form (the unique least-squares
solution whenever the sample points are not all equal); the annotated angle is
`np.degrees(np.arcsin(m))`. -/

/-- numpy `np.polyfit(xs, ys, 1)` as (slope, intercept). -/
noncomputable def polyfit1 (xs ys : List ℝ) : ℝ × ℝ :=
  let n : ℝ := xs.length
  let sx := xs.sum
  let sy := ys.sum
  let sxx := (xs.map (fun x => x ^ 2)).sum
  let sxy := (List.zipWith (fun a b => a * b) xs ys).sum
  let m := (n * sxy - sx * sy) / (n * sxx - sx ^ 2)
  (m, (sy - m * sx) / n)

/-- Annotation `np.degrees(np.arcsin(slope))`: the misalignment angle annotated on the
field-alignment plot (line 122), in degrees. -/
noncomputable def alignAngleDeg (slope : ℝ) : ℝ :=
  Real.arcsin slope * (180 / Real.pi)

/-! ## Theorems -/

theorem attrLookup_eq_none {l : List (String × ℚ)} {name : String}
    (h : name ∉ l.map Prod.fst) : attrLookup l name = none := by
  induction l with
  | nil => rfl
  | cons p rest ih =>
    simp only [List.map_cons, List.mem_cons, not_or] at h
    rw [attrLookup.eq_def]
    simp only
    rw [if_neg (fun hh => h.1 (hh.symm))]
    exact ih h.2

theorem constants_name_length_le {name : String}
    (h : name ∈ ampsPerTeslaConstants.map Prod.fst) : name.length ≤ 29 := by
  simp only [ampsPerTeslaConstants, List.map_cons, List.map_nil, List.mem_cons,
    List.not_mem_nil, or_false] at h
  rcases h with rfl | rfl | rfl | rfl | rfl | rfl | rfl <;> decide

theorem fourteen_tesla_key_length (axis : String) :
    (ampsPerTeslaKey "fourteen_tesla" axis).length = 30 + (pyUpper axis).length := by
  have h30 : (pyUpper "fourteen_tesla" ++ "_AMPS_PER_TESLA_").length = 30 := by decide
  rw [ampsPerTeslaKey, String.length_append, h30]

theorem fourteen_tesla_key_not_mem (axis : String) :
    ampsPerTeslaKey "fourteen_tesla" axis ∉ ampsPerTeslaConstants.map Prod.fst := by
  intro hmem
  have h1 := constants_name_length_le hmem
  rw [fourteen_tesla_key_length] at h1
  omega

/-- C1 counterexample: the claim speaks of nine (fridge, axis) pairs, but the
constants module defines exactly seven names, and the composite-key lookup for
the pair (FOURTEEN_TESLA, X) fails with NotFound rather than returning 8.341
(the FOURTEEN_TESLA constant carries no axis suffix, so no composite key
reaches it). -/
theorem C1_counterexample :
    lookupAmpsPerTesla "fourteen_tesla" "x" = none ∧
    (ampsPerTeslaConstants.map Prod.fst).length = 7 := by
  constructor
  · have hkey : ampsPerTeslaKey "fourteen_tesla" "x" = "FOURTEEN_TESLA_AMPS_PER_TESLA_X" := by
      decide
    rw [lookupAmpsPerTesla, hkey, getattrConstants, ampsPerTeslaConstants]
    simp [attrLookup]
  · decide

/-- C1 (amended): the constants table defines exactly seven constants; lookup by
the upper-cased composite key returns 35.705 / 72.575 / 18.203 for VECTOR9
X/Y/Z and 35.927 / 74.548 / 18.0110 for VECTOR10 X/Y/Z; the FOURTEEN_TESLA
constant is 8.341 under the suffix-less name `FOURTEEN_TESLA_AMPS_PER_TESLA`,
which the composite key cannot produce for any axis string; and lookup of any
name other than the seven defined ones fails with NotFound. -/
theorem C1_constants_table :
    (lookupAmpsPerTesla "vector9" "x" = some 35.705 ∧
     lookupAmpsPerTesla "vector9" "y" = some 72.575 ∧
     lookupAmpsPerTesla "vector9" "z" = some 18.203 ∧
     lookupAmpsPerTesla "vector10" "x" = some 35.927 ∧
     lookupAmpsPerTesla "vector10" "y" = some 74.548 ∧
     lookupAmpsPerTesla "vector10" "z" = some 18.0110) ∧
    getattrConstants "FOURTEEN_TESLA_AMPS_PER_TESLA" = some 8.341 ∧
    (∀ axis : String, lookupAmpsPerTesla "fourteen_tesla" axis = none) ∧
    (∀ name : String, name ∉ ampsPerTeslaConstants.map Prod.fst →
      getattrConstants name = none) := by
  refine ⟨⟨?_, ?_, ?_, ?_, ?_, ?_⟩, ?_, ?_, ?_⟩
  · have hkey : ampsPerTeslaKey "vector9" "x" = "VECTOR9_AMPS_PER_TESLA_X" := by decide
    rw [lookupAmpsPerTesla, hkey, getattrConstants, ampsPerTeslaConstants]
    simp [attrLookup]
  · have hkey : ampsPerTeslaKey "vector9" "y" = "VECTOR9_AMPS_PER_TESLA_Y" := by decide
    rw [lookupAmpsPerTesla, hkey, getattrConstants, ampsPerTeslaConstants]
    simp [attrLookup]
  · have hkey : ampsPerTeslaKey "vector9" "z" = "VECTOR9_AMPS_PER_TESLA_Z" := by decide
    rw [lookupAmpsPerTesla, hkey, getattrConstants, ampsPerTeslaConstants]
    simp [attrLookup]
  · have hkey : ampsPerTeslaKey "vector10" "x" = "VECTOR10_AMPS_PER_TESLA_X" := by decide
    rw [lookupAmpsPerTesla, hkey, getattrConstants, ampsPerTeslaConstants]
    simp [attrLookup]
  · have hkey : ampsPerTeslaKey "vector10" "y" = "VECTOR10_AMPS_PER_TESLA_Y" := by decide
    rw [lookupAmpsPerTesla, hkey, getattrConstants, ampsPerTeslaConstants]
    simp [attrLookup]
  · have hkey : ampsPerTeslaKey "vector10" "z" = "VECTOR10_AMPS_PER_TESLA_Z" := by decide
    rw [lookupAmpsPerTesla, hkey, getattrConstants, ampsPerTeslaConstants]
    simp [attrLookup]
  · rw [getattrConstants, ampsPerTeslaConstants]
    simp [attrLookup]
  · intro axis
    exact attrLookup_eq_none (fourteen_tesla_key_not_mem axis)
  · intro name h
    exact attrLookup_eq_none h

/-- C1 witness: the general NotFound clause of `C1_constants_table`, applied to
the concrete undefined name `VECTOR9_AMPS_PER_TESLA_W`. -/
theorem C1_witness : getattrConstants "VECTOR9_AMPS_PER_TESLA_W" = none :=
  C1_constants_table.2.2.2 "VECTOR9_AMPS_PER_TESLA_W" (by decide)

theorem toDigitsCore_eq_decDigits (fuel n : ℕ) (acc : List Char) (h : n < fuel) :
    Nat.toDigitsCore 10 fuel n acc = decDigits n ++ acc := by
  induction fuel generalizing n acc with
  | zero => omega
  | succ fuel ih =>
    rw [Nat.toDigitsCore]
    by_cases h10 : n < 10
    · rw [if_pos (Nat.div_eq_of_lt h10), decDigits, dif_pos h10,
        Nat.mod_eq_of_lt h10, List.singleton_append]
    · have hne : n / 10 ≠ 0 := by
        intro h0
        exact h10 (by omega : n < 10)
      rw [if_neg hne, ih (n / 10) _ (by
        have := Nat.div_lt_self (by omega : 0 < n) (by norm_num : 1 < 10)
        omega)]
      conv_rhs => rw [decDigits]
      rw [dif_neg h10, List.append_assoc, List.singleton_append]

theorem parseDigits_concat (l : List Char) (c : Char) :
    parseDigits (l ++ [c]) = 10 * parseDigits l + digitVal c := by
  simp [parseDigits, List.foldl_concat]

theorem digitVal_digitChar : ∀ n < 10, digitVal (Nat.digitChar n) = n := by decide

theorem parseDigits_decDigits (n : ℕ) : parseDigits (decDigits n) = n := by
  induction n using Nat.strong_induction_on with
  | _ n ih =>
    by_cases h10 : n < 10
    · rw [decDigits, dif_pos h10]
      simpa [parseDigits] using digitVal_digitChar n h10
    · rw [decDigits, dif_neg h10, parseDigits_concat,
        ih (n / 10) (Nat.div_lt_self (by omega) (by norm_num)),
        digitVal_digitChar (n % 10) (Nat.mod_lt n (by norm_num))]
      omega

theorem natRepr_eq_decDigits (n : ℕ) : Nat.repr n = (decDigits n).asString := by
  rw [Nat.repr, Nat.toDigits, toDigitsCore_eq_decDigits (n + 1) n [] (Nat.lt_succ_self n),
    List.append_nil]

theorem natRepr_injective : Function.Injective Nat.repr := by
  intro m n h
  rw [natRepr_eq_decDigits, natRepr_eq_decDigits] at h
  have hdata : decDigits m = decDigits n := congrArg String.data h
  have := congrArg parseDigits hdata
  rwa [parseDigits_decDigits, parseDigits_decDigits] at this

theorem dpKey_injective : Function.Injective dpKey := by
  intro m n h
  apply natRepr_injective
  have hdata := congrArg String.data h
  rw [dpKey, dpKey, String.data_append, String.data_append] at hdata
  have := List.append_cancel_left hdata
  exact String.ext this

theorem cfgGet_mem_keys {cfg : Config} {key : String} (h : cfgGet cfg key ≠ none) :
    key ∈ cfg.map Prod.fst := by
  induction cfg with
  | nil => exact absurd rfl h
  | cons p rest ih =>
    rw [cfgGet.eq_def] at h
    simp only at h
    by_cases hk : p.1 = key
    · simp [hk]
    · rw [if_neg hk] at h
      simp [ih h]

theorem nodup_subset_length {α : Type} [DecidableEq α] {l₁ l₂ : List α}
    (h : l₁.Nodup) (hs : l₁ ⊆ l₂) : l₁.length ≤ l₂.length :=
  calc l₁.length = l₁.toFinset.card := (List.toFinset_card_of_nodup h).symm
    _ ≤ l₂.toFinset.card :=
      Finset.card_le_card (fun _x hx => List.mem_toFinset.mpr (hs (List.mem_toFinset.mp hx)))
    _ ≤ l₂.length := l₂.toFinset_card_le

/-- In a config with `L` entries, some index in `[1, L+1]` has a falsy
`DATAPATH{i}`: the loop always stops within the fuel used by `datasets`. -/
theorem exists_falsy_within_bound (cfg : Config) :
    ∃ k, 1 ≤ k ∧ k ≤ cfg.length + 1 ∧ pyTruthy (cfgGet cfg (dpKey k)) = false := by
  by_contra hall
  push_neg at hall
  have htr : ∀ k, 1 ≤ k → k ≤ cfg.length + 1 → pyTruthy (cfgGet cfg (dpKey k)) = true := by
    intro k h1 h2
    have := hall k h1 h2
    revert this
    cases pyTruthy (cfgGet cfg (dpKey k)) <;> simp
  have hsub : (List.range' 1 (cfg.length + 1)).map dpKey ⊆ cfg.map Prod.fst := by
    intro _x hx
    rcases List.mem_map.mp hx with ⟨j, hj, rfl⟩
    rw [List.mem_range'_1] at hj
    apply cfgGet_mem_keys
    intro hnone
    have := htr j hj.1 (by omega)
    rw [hnone] at this
    exact absurd this (by simp [pyTruthy])
  have hnd : ((List.range' 1 (cfg.length + 1)).map dpKey).Nodup :=
    (List.nodup_range' 1 (cfg.length + 1)).map dpKey_injective
  have hlen := nodup_subset_length hnd hsub
  simp only [List.length_map, List.length_range'] at hlen
  omega

/-- The loop body, characterized: with enough fuel and all of
`DATAPATH{start}, …, DATAPATH{k-1}` truthy but `DATAPATH{k}` falsy, the loop
started at `start` enumerates exactly `start, …, k-1`. -/
theorem enumDatasets_eq_range' (cfg : Config) (k : ℕ)
    (htr : ∀ j, 1 ≤ j → j < k → pyTruthy (cfgGet cfg (dpKey j)) = true)
    (hstop : pyTruthy (cfgGet cfg (dpKey k)) = false) :
    ∀ fuel start, 1 ≤ start → start ≤ k → k < start + fuel →
      enumDatasets cfg fuel start = List.range' start (k - start) := by
  intro fuel
  induction fuel with
  | zero => omega
  | succ fuel ih =>
    intro start h1 hsk hfuel
    by_cases hse : start = k
    · subst hse
      rw [enumDatasets, if_neg (by rw [hstop]; simp), Nat.sub_self, List.range'_zero]
    · have hlt : start < k := by omega
      rw [enumDatasets, if_pos (htr start h1 hlt),
        ih (start + 1) (by omega) (by omega) (by omega)]
      have : k - start = (k - (start + 1)) + 1 := by omega
      rw [this, List.range'_succ]

/-- Enumeration `datasets` stops exactly at the first falsy `DATAPATH{k}`. -/
theorem datasets_eq_range' (cfg : Config) (k : ℕ) (hk : 1 ≤ k)
    (htr : ∀ j, 1 ≤ j → j < k → pyTruthy (cfgGet cfg (dpKey j)) = true)
    (hstop : pyTruthy (cfgGet cfg (dpKey k)) = false) :
    datasets cfg = List.range' 1 (k - 1) := by
  obtain ⟨k₀, hk₀1, hk₀2, hk₀f⟩ := exists_falsy_within_bound cfg
  have hkk₀ : k ≤ k₀ := by
    by_contra hlt
    push_neg at hlt
    have := htr k₀ hk₀1 hlt
    rw [hk₀f] at this
    exact absurd this (by simp)
  exact enumDatasets_eq_range' cfg k htr hstop (cfg.length + 1) 1 le_rfl hk (by omega)

/-- C3 counterexample: on `C3cex` the enumeration loop stops at index 1 even
though `DATAPATH1` is present (the empty string is falsy in Python), so no
dataset is enumerated although `DATAPATH1` and `DATAPATH2` are both defined;
and with `CH_BIAS1` defined but the base `CH_BIAS` absent, the channel
resolution raises `KeyError` instead of using the suffixed value, because the
fallback `config["CH_BIAS"]` is evaluated eagerly. -/
theorem C3_counterexample :
    datasets C3cex = [] ∧
    (cfgGet C3cex "DATAPATH1").isSome = true ∧
    pyTruthy (cfgGet C3cex "DATAPATH2") = true ∧
    (cfgGet C3cex "CH_BIAS1").isSome = true ∧
    resolveChannel C3cex "CH_BIAS" 1 = Except.error "CH_BIAS" := by
  refine ⟨by decide, by decide, by decide, by decide, rfl⟩

/-- C3 (amended): dataset enumeration is 1-indexed and stops at the first index
`k` whose `DATAPATH{k}` is absent **or empty** (Python truthiness), leaving
later-indexed keys unread even if present; for each dataset index, a suffixed
`CH_BIAS{i}`/`CH_MEAS{i}` value is used when defined and otherwise the base
key's value is used, provided the base key is present (it is always read, its
absence being a fatal `KeyError`); a suffixed `THRESHOLD{i}` is used when
defined and otherwise the base `THRESHOLD` (which may itself be absent). -/
theorem C3_enumeration_and_overrides (cfg : Config) (k : ℕ) (hk : 1 ≤ k)
    (htr : ∀ j, 1 ≤ j → j < k → pyTruthy (cfgGet cfg (dpKey j)) = true)
    (hstop : pyTruthy (cfgGet cfg (dpKey k)) = false) :
    datasets cfg = List.range' 1 (k - 1) ∧
    (∀ base i v bv, cfgGet cfg base = some bv →
      cfgGet cfg (base ++ Nat.repr i) = some v →
      resolveChannel cfg base i = Except.ok v) ∧
    (∀ base i bv, cfgGet cfg base = some bv →
      cfgGet cfg (base ++ Nat.repr i) = none →
      resolveChannel cfg base i = Except.ok bv) ∧
    (∀ parse i v, cfgGet cfg ("THRESHOLD" ++ Nat.repr i) = some v →
      thresholdFor cfg parse i = some (parse v)) ∧
    (∀ parse i, cfgGet cfg ("THRESHOLD" ++ Nat.repr i) = none →
      thresholdFor cfg parse i = (cfgGet cfg "THRESHOLD").map parse) := by
  refine ⟨datasets_eq_range' cfg k hk htr hstop, ?_, ?_, ?_, ?_⟩
  · intro base i v bv hb hs
    simp [resolveChannel, hb, hs]
  · intro base i bv hb hs
    simp [resolveChannel, hb, hs]
  · intro parse i v hs
    rw [thresholdFor, hs]
  · intro parse i hs
    rw [thresholdFor, hs]

/-- C3 witness: on `C3wit` the enumeration yields exactly dataset 1 (stop at
the absent `DATAPATH2`), the channel resolution falls back to the base
`CH_BIAS`, and the suffixed `THRESHOLD1` wins over the base `THRESHOLD`. -/
theorem C3_witness :
    datasets C3wit = [1] ∧
    resolveChannel C3wit "CH_BIAS" 1 = Except.ok "bias" ∧
    thresholdFor C3wit (fun _ => (3 : ℚ)) 1 = some 3 := by
  have h := C3_enumeration_and_overrides C3wit 2 (by norm_num)
    (fun j h1 h2 => by
      have hj : j = 1 := by omega
      subst hj
      decide)
    (by decide)
  refine ⟨?_, ?_, ?_⟩
  · rw [h.1]
    rfl
  · exact h.2.2.1 "CH_BIAS" 1 "bias" (by decide) (by decide)
  · exact h.2.2.2.1 (fun _ => (3 : ℚ)) 1 "7" (by decide)

/-- C10: in the `--align` branch, if at least one dataset is enumerated (all of
`DATAPATH1 … DATAPATH(k-1)` truthy, `DATAPATH{k}` falsy, `k ≥ 2`), the
field-alignment figure is saved to the last enumerated dataset's output prefix
(derived from `DATAPATH{k-1}` and that dataset's in-plane value) plus
`"_field-alignment.png"`; if the section defines no `DATAPATH1`, the script
terminates with an uncaught error and writes no field-alignment artifact. -/
theorem C10_align_artifact (cfg : Config) (iplRepr : String → String) :
    (cfgGet cfg "DATAPATH1" = none →
      ∃ e, alignArtifact cfg iplRepr = Except.error e) ∧
    (∀ k, 2 ≤ k →
      (∀ j, 1 ≤ j → j < k → pyTruthy (cfgGet cfg (dpKey j)) = true) →
      pyTruthy (cfgGet cfg (dpKey k)) = false →
      alignArtifact cfg iplRepr =
        Except.ok (outpathFor ((cfgGet cfg (dpKey (k - 1))).getD "") iplRepr ++
          "_field-alignment.png")) := by
  constructor
  · intro hnone
    have hstop : pyTruthy (cfgGet cfg (dpKey 1)) = false := by
      have h1 : dpKey 1 = "DATAPATH1" := by decide
      rw [h1, hnone]
      rfl
    have hds : datasets cfg = List.range' 1 0 :=
      datasets_eq_range' cfg 1 le_rfl (fun j h1 h2 => absurd h1 (by omega)) hstop
    refine ⟨"polyfit: expected non-empty vector for x", ?_⟩
    rw [alignArtifact, hds]
    rfl
  · intro k hk htr hstop
    have hds : datasets cfg = List.range' 1 (k - 1) :=
      datasets_eq_range' cfg k (by omega) htr hstop
    have hlast : (List.range' 1 (k - 1)).getLast? = some (k - 1) := by
      rw [List.getLast?_range']
      rw [if_neg (by omega)]
      congr 1
      omega
    rw [alignArtifact, hds, hlast]

/-- C10 witness: on `C10wit` (two datasets, the second at `b.hdf5`) the
field-alignment figure lands at
`output/b_inplane=0.1_field-alignment.png`, and on the empty config the
`--align` branch fails with an error. -/
theorem C10_witness :
    alignArtifact C10wit (fun _ => "0.1") =
      Except.ok "output/b_inplane=0.1_field-alignment.png" ∧
    (∃ e, alignArtifact ([] : Config) (fun _ => "0.1") = Except.error e) := by
  constructor
  · have h := (C10_align_artifact C10wit (fun _ => "0.1")).2 3 (by norm_num)
      (fun j h1 h2 => by
        interval_cases j <;> decide)
      (by decide)
    rw [h]
    rfl
  · exact (C10_align_artifact ([] : Config) (fun _ => "0.1")).1 rfl

/-- C4: the dV/dI block branches on the measurement-channel name exactly as the
claim describes: numerical gradient ratio over `DC_AMP_GAIN` for `"VI curve"`/
`"SingleValue"` channels, magnitude of the measurement otherwise, with the
extra `outputAmplitude / R_AC_OUT` normalization of dV/dI and `R_DC_OUT`
rescaling of the bias for channels ending in `"Value"`. -/
theorem C4_dvdi_branches (ch_meas : String) (meas : List ℂ) (ibias : List ℝ)
    (dcAmpGain rAcOut rDcOut outputAmplitude : ℝ) :
    (dvdiCompute ch_meas meas ibias dcAmpGain rAcOut rDcOut outputAmplitude).dvdi =
      (dvdiClaimed ch_meas meas ibias dcAmpGain rAcOut rDcOut outputAmplitude).1 ∧
    (dvdiCompute ch_meas meas ibias dcAmpGain rAcOut rDcOut outputAmplitude).ibias =
      (dvdiClaimed ch_meas meas ibias dcAmpGain rAcOut rDcOut outputAmplitude).2 := by
  rw [dvdiCompute, dvdiClaimed]
  split_ifs with h1 h2
  · exact ⟨rfl, rfl⟩
  · refine ⟨?_, rfl⟩
    simp [List.map_map, Function.comp]
  · exact ⟨rfl, rfl⟩

/-- C5: after switching-current extraction, fridge `"vector10"` gets its field
array reversed and negated and both critical-current branches reversed, fridge
`"vector9"` is left unchanged without warning, and any other fridge name
leaves all three arrays unchanged with a non-fatal warning. -/
theorem C5_fridge_convention (fridge : String) (b p n : List ℝ) :
    applyFridgeConvention fridge b p n =
      (if fridge = "vector10" then
        { bfield := b.reverse.map (fun x => -x), ic_p := p.reverse,
          ic_n := n.reverse, warned := false }
      else if fridge = "vector9" then
        { bfield := b, ic_p := p, ic_n := n, warned := false }
      else
        { bfield := b, ic_p := p, ic_n := n, warned := true } : FridgeResult) := by
  rw [applyFridgeConvention]
  split_ifs <;> simp [mul_neg_one]

/-- C9 counterexample: for fridge `"vector10"`, the field array used downstream
of the sign-convention block is not the raw data divided by the conversion
factor — it is additionally reversed and negated. -/
theorem C9_counterexample :
    bfieldDownstream "vector10" [1, 2] 1 [] [] ≠ bfieldLoaded [1, 2] 1 := by
  simp [bfieldDownstream, bfieldLoaded, applyFridgeConvention]
  norm_num

/-- C9 (amended): the perpendicular-field array is converted from coil current
to tesla exactly once, at load time, by dividing the raw CH_FIELD_PERP data by
the (FRIDGE, PERP_AXIS) amps-per-tesla factor; the raw-data plot and Ic
extraction use exactly that converted array, and the downstream analysis
(estimators, fit) uses it unchanged except for fridge `"vector10"`, where it is
reversed and negated (a sign/order correction, no further rescaling). -/
theorem C9_bfield_single_conversion (fridge : String) (raw : List ℝ) (apt : ℝ)
    (p n : List ℝ) :
    bfieldLoaded raw apt = raw.map (fun x => x / apt) ∧
    bfieldDownstream fridge raw apt p n =
      (if fridge = "vector10" then (bfieldLoaded raw apt).reverse.map (fun x => -x)
       else bfieldLoaded raw apt) := by
  refine ⟨rfl, ?_⟩
  rw [bfieldDownstream, applyFridgeConvention]
  split_ifs <;> simp [mul_neg_one]

/-- C6: with `--dry-run` (whatever the other flags), no optimization runs, the
artifacts are exactly the raw-data, Ic-extraction, frequency-estimate,
offset-estimate and fit-overlay plots — in particular no fit report, parameter
table, serialized fit result, or fit CSV — and the fit-overlay plot uses the
initial-guess parameter set in place of best-fit parameters. -/
theorem C6_dry_run (bb pg ci em : Bool) :
    squidArtifacts ⟨bb, true, pg, ci, em⟩ =
      ["_raw-data.png", "_ic-extraction.png", "_fft.png", "_bfield-offset.png", "_fit.png"] ∧
    fitRuns ⟨bb, true, pg, ci, em⟩ = false ∧
    overlayParams ⟨bb, true, pg, ci, em⟩ = OverlayParams.initialGuess ∧
    "_fit-report.txt" ∉ squidArtifacts ⟨bb, true, pg, ci, em⟩ ∧
    "_fit-params.txt" ∉ squidArtifacts ⟨bb, true, pg, ci, em⟩ ∧
    "_model-result.json" ∉ squidArtifacts ⟨bb, true, pg, ci, em⟩ ∧
    "_fit.csv" ∉ squidArtifacts ⟨bb, true, pg, ci, em⟩ := by
  simp [squidArtifacts, fitRuns, overlayParams]

/-- C7 counterexample: the configured bound is `max=1`, which is inclusive in
lmfit, so `transparency = 1` satisfies both transparency bounds — the bound is
not strictly below 1 — and at transparency 1 the CPR denominator vanishes at
`phase − anomalous_phase = π`: the singularity is reachable under the
configured bounds. -/
theorem C7_counterexample :
    withinBounds transparency1Spec 1 ∧ withinBounds transparency2Spec 1 ∧
    cprDenom Real.pi 0 1 = 0 := by
  refine ⟨⟨trivial, le_refl (1 : ℝ)⟩, ⟨trivial, le_refl (1 : ℝ)⟩, ?_⟩
  rw [cprDenom, sub_zero]
  norm_num [Real.sin_pi_div_two]

/-- C7 (amended): the fit configuration bounds both transparency parameters
from above by 1 inclusive (`max=1`); every transparency strictly below 1 keeps
the CPR denominator positive at all phases, so the singularity is unreachable
only in the interior of the bound, while transparency = 1 itself remains
admissible and there the denominator vanishes at
`phase − anomalous_phase = π`. -/
theorem C7_transparency_bounds (t : ℝ) :
    (withinBounds transparency1Spec t ↔ t ≤ 1) ∧
    (withinBounds transparency2Spec t ↔ t ≤ 1) ∧
    (t < 1 → ∀ phase anomalous_phase : ℝ,
      0 < cprDenom phase anomalous_phase t) ∧
    cprDenom Real.pi 0 1 = 0 := by
  refine ⟨⟨fun h => h.2, fun h => ⟨trivial, h⟩⟩,
    ⟨fun h => h.2, fun h => ⟨trivial, h⟩⟩, ?_, ?_⟩
  · intro ht phase φ₀
    rw [cprDenom, Real.sqrt_pos]
    have h1 : Real.sin ((phase - φ₀) / 2) ^ 2 ≤ 1 := Real.sin_sq_le_one _
    have h2 : 0 ≤ Real.sin ((phase - φ₀) / 2) ^ 2 := sq_nonneg _
    rcases eq_or_lt_of_le h2 with hz | hpos
    · rw [← hz]
      norm_num
    · nlinarith
  · rw [cprDenom, sub_zero]
    norm_num [Real.sin_pi_div_two]

/-- C7 witness: `C7_transparency_bounds` at the concrete transparency 1/2,
which is admissible and keeps the CPR denominator positive at phase π. -/
theorem C7_witness :
    withinBounds transparency1Spec (1/2 : ℝ) ∧ 0 < cprDenom Real.pi 0 (1/2 : ℝ) := by
  have h := C7_transparency_bounds (1/2 : ℝ)
  exact ⟨h.1.mpr (by norm_num), h.2.2.1 (by norm_num) Real.pi 0⟩

theorem foldl_max_init (xs : List ℝ) : ∀ a : ℝ, a ≤ xs.foldl max a := by
  induction xs with
  | nil => exact fun a => le_refl a
  | cons y ys ih =>
    intro a
    exact le_trans (le_max_left a y) (ih (max a y))

theorem foldl_max_of_mem {xs : List ℝ} {x : ℝ} (hx : x ∈ xs) :
    ∀ a : ℝ, x ≤ xs.foldl max a := by
  induction xs with
  | nil => exact absurd hx (List.not_mem_nil x)
  | cons y ys ih =>
    intro a
    rcases List.mem_cons.mp hx with rfl | hmem
    · exact le_trans (le_max_right a x) (foldl_max_init ys (max a x))
    · exact ih hmem (max a y)

theorem foldl_max_le {xs : List ℝ} {b : ℝ} (h : ∀ x ∈ xs, x ≤ b) :
    ∀ a : ℝ, a ≤ b → xs.foldl max a ≤ b := by
  induction xs with
  | nil => exact fun a ha => ha
  | cons y ys ih =>
    intro a ha
    exact ih (fun x hx => h x (List.mem_cons_of_mem y hx)) (max a y)
      (max_le ha (h y (List.mem_cons_self y ys)))

theorem le_listMax {l : List ℝ} {x : ℝ} (hx : x ∈ l) : x ≤ listMax l := by
  cases l with
  | nil => exact absurd hx (List.not_mem_nil x)
  | cons y ys =>
    rcases List.mem_cons.mp hx with rfl | hmem
    · exact foldl_max_init ys x
    · exact foldl_max_of_mem hmem y

theorem listMax_le {l : List ℝ} {b : ℝ} (hne : l ≠ []) (h : ∀ x ∈ l, x ≤ b) :
    listMax l ≤ b := by
  cases l with
  | nil => exact absurd rfl hne
  | cons y ys =>
    exact foldl_max_le (fun x hx => h x (List.mem_cons_of_mem y hx)) y
      (h y (List.mem_cons_self y ys))

theorem foldl_min_init (xs : List ℝ) : ∀ a : ℝ, xs.foldl min a ≤ a := by
  induction xs with
  | nil => exact fun a => le_refl a
  | cons y ys ih =>
    intro a
    exact le_trans (ih (min a y)) (min_le_left a y)

theorem foldl_min_of_mem {xs : List ℝ} {x : ℝ} (hx : x ∈ xs) :
    ∀ a : ℝ, xs.foldl min a ≤ x := by
  induction xs with
  | nil => exact absurd hx (List.not_mem_nil x)
  | cons y ys ih =>
    intro a
    rcases List.mem_cons.mp hx with rfl | hmem
    · exact le_trans (foldl_min_init ys (min a x)) (min_le_right a x)
    · exact ih hmem (min a y)

theorem listMin_le {l : List ℝ} {x : ℝ} (hx : x ∈ l) : listMin l ≤ x := by
  cases l with
  | nil => exact absurd hx (List.not_mem_nil x)
  | cons y ys =>
    rcases List.mem_cons.mp hx with rfl | hmem
    · exact foldl_min_init ys x
    · exact foldl_min_of_mem hmem y

theorem foldl_max_map (f : ℝ → ℝ) (hf : ∀ a b : ℝ, f (max a b) = max (f a) (f b))
    (xs : List ℝ) : ∀ a : ℝ, (xs.map f).foldl max (f a) = f (xs.foldl max a) := by
  induction xs with
  | nil => exact fun a => rfl
  | cons y ys ih =>
    intro a
    rw [List.map_cons, List.foldl_cons, List.foldl_cons, ← hf, ih (max a y)]

theorem foldl_min_map (f : ℝ → ℝ) (hf : ∀ a b : ℝ, f (min a b) = min (f a) (f b))
    (xs : List ℝ) : ∀ a : ℝ, (xs.map f).foldl min (f a) = f (xs.foldl min a) := by
  induction xs with
  | nil => exact fun a => rfl
  | cons y ys ih =>
    intro a
    rw [List.map_cons, List.foldl_cons, List.foldl_cons, ← hf, ih (min a y)]

theorem listMax_map (f : ℝ → ℝ) (hf : ∀ a b : ℝ, f (max a b) = max (f a) (f b))
    {l : List ℝ} (hne : l ≠ []) : listMax (l.map f) = f (listMax l) := by
  cases l with
  | nil => exact absurd rfl hne
  | cons y ys => exact foldl_max_map f hf ys y

theorem listMin_map (f : ℝ → ℝ) (hf : ∀ a b : ℝ, f (min a b) = min (f a) (f b))
    {l : List ℝ} (hne : l ≠ []) : listMin (l.map f) = f (listMin l) := by
  cases l with
  | nil => exact absurd rfl hne
  | cons y ys => exact foldl_min_map f hf ys y

theorem phaseDiffGrid_ne_nil : phaseDiffGrid ≠ [] := by
  intro hcontra
  have hlen := congrArg List.length hcontra
  rw [phaseDiffGrid, List.length_map, List.length_range, List.length_nil] at hlen
  exact absurd hlen (by norm_num)

theorem squidCurve_ne_nil (t a : ℝ) : squidCurve t a ≠ [] := by
  rw [squidCurve]
  simpa using phaseDiffGrid_ne_nil

/-- C2: for any parameters of the demo sweep (indeed for any real `t`, `a`),
as long as the computed SQUID-current curve is not constant, the normalized
curve has minimum exactly −1/2 and maximum exactly +1/2. -/
theorem C2_demo_normalization (t a : ℝ)
    (_ht : t ∈ SECOND_JUNCTION_TRANSPARENCIES)
    (_ha : a ∈ SECOND_JUNCTION_AMPLITUDES)
    (h : listMin (squidCurve t a) < listMax (squidCurve t a)) :
    listMin (normalizedCurve t a) = -(1/2) ∧ listMax (normalizedCurve t a) = 1/2 := by
  have hd : (0 : ℝ) < listMax (squidCurve t a) - listMin (squidCurve t a) := by
    linarith
  have hmono : Monotone (fun x : ℝ =>
      (x - (listMax (squidCurve t a) + listMin (squidCurve t a)) / 2) /
        (listMax (squidCurve t a) - listMin (squidCurve t a))) := by
    intro x y hxy
    dsimp only
    exact (div_le_div_iff_of_pos_right hd).mpr (by linarith)
  constructor
  · rw [normalizedCurve, listMin_map _ (fun x y => hmono.map_min) (squidCurve_ne_nil t a)]
    field_simp
    ring
  · rw [normalizedCurve, listMax_map _ (fun x y => hmono.map_max) (squidCurve_ne_nil t a)]
    field_simp
    ring

theorem cpr_transparency_zero (x : ℝ) :
    finite_transparency_jj_current x 0 1 0 = Real.sin x := by
  rw [finite_transparency_jj_current, cprDenom]
  simp

theorem gammaGrid_ne_nil : gammaGrid ≠ [] := by
  intro hcontra
  have hlen := congrArg List.length hcontra
  rw [gammaGrid, List.length_map, List.length_range, List.length_nil] at hlen
  exact absurd hlen (by norm_num)

theorem squid_at_pi :
    compute_squid_current Real.pi finite_transparency_jj_current ((0 : ℝ), 1, 0)
      finite_transparency_jj_current ((0 : ℝ), 1, 0) = 0 := by
  rw [compute_squid_current]
  show listMax (gammaGrid.map (fun γ =>
    finite_transparency_jj_current γ 0 1 0 +
    finite_transparency_jj_current (γ - Real.pi) 0 1 0)) = 0
  have hall : ∀ x ∈ gammaGrid.map (fun γ =>
      finite_transparency_jj_current γ 0 1 0 +
      finite_transparency_jj_current (γ - Real.pi) 0 1 0), x = 0 := by
    intro _x hx
    rcases List.mem_map.mp hx with ⟨γ, _, rfl⟩
    rw [cpr_transparency_zero, cpr_transparency_zero, Real.sin_sub_pi]
    ring
  have hne : gammaGrid.map (fun γ =>
      finite_transparency_jj_current γ 0 1 0 +
      finite_transparency_jj_current (γ - Real.pi) 0 1 0) ≠ [] := by
    simpa using gammaGrid_ne_nil
  obtain ⟨x, hx⟩ := List.exists_mem_of_ne_nil _ hne
  refine le_antisymm (listMax_le hne (fun y hy => le_of_eq (hall y hy))) ?_
  have := le_listMax hx
  rwa [hall x hx] at this

theorem pi_div_two_mem_gammaGrid : Real.pi / 2 ∈ gammaGrid := by
  rw [gammaGrid]
  refine List.mem_map.mpr ⟨25, List.mem_range.mpr (by norm_num), ?_⟩
  push_cast
  ring

theorem squid_at_zero :
    2 ≤ compute_squid_current 0 finite_transparency_jj_current ((0 : ℝ), 1, 0)
      finite_transparency_jj_current ((0 : ℝ), 1, 0) := by
  rw [compute_squid_current]
  show (2 : ℝ) ≤ listMax (gammaGrid.map (fun γ =>
    finite_transparency_jj_current γ 0 1 0 +
    finite_transparency_jj_current (γ - 0) 0 1 0))
  have hmem : finite_transparency_jj_current (Real.pi / 2) 0 1 0 +
      finite_transparency_jj_current (Real.pi / 2 - 0) 0 1 0 ∈
      gammaGrid.map (fun γ =>
        finite_transparency_jj_current γ 0 1 0 +
        finite_transparency_jj_current (γ - 0) 0 1 0) :=
    List.mem_map.mpr ⟨Real.pi / 2, pi_div_two_mem_gammaGrid, rfl⟩
  have hval : finite_transparency_jj_current (Real.pi / 2) 0 1 0 +
      finite_transparency_jj_current (Real.pi / 2 - 0) 0 1 0 = 2 := by
    rw [cpr_transparency_zero, cpr_transparency_zero, sub_zero, Real.sin_pi_div_two]
    norm_num
  have := le_listMax hmem
  rwa [hval] at this

theorem pi_mem_phaseDiffGrid : Real.pi ∈ phaseDiffGrid := by
  rw [phaseDiffGrid]
  refine List.mem_map.mpr ⟨750, List.mem_range.mpr (by norm_num), ?_⟩
  push_cast
  ring

theorem zero_mem_phaseDiffGrid : (0 : ℝ) ∈ phaseDiffGrid := by
  rw [phaseDiffGrid]
  refine List.mem_map.mpr ⟨500, List.mem_range.mpr (by norm_num), ?_⟩
  push_cast
  ring

theorem squidCurve_nonconstant : listMin (squidCurve 0 1) < listMax (squidCurve 0 1) := by
  have hFJ : ((0 : ℝ), FIRST_JUNCTION.1, FIRST_JUNCTION.2) = ((0 : ℝ), 1, 0) := rfl
  have hmem0 : (0 : ℝ) ∈ squidCurve 0 1 := by
    rw [squidCurve]
    refine List.mem_map.mpr ⟨Real.pi, pi_mem_phaseDiffGrid, ?_⟩
    dsimp only
    rw [hFJ]
    exact squid_at_pi
  have hmem2 : compute_squid_current 0 finite_transparency_jj_current ((0 : ℝ), 1, 0)
      finite_transparency_jj_current ((0 : ℝ), 1, 0) ∈ squidCurve 0 1 := by
    rw [squidCurve]
    refine List.mem_map.mpr ⟨0, zero_mem_phaseDiffGrid, ?_⟩
    dsimp only
    rw [hFJ]
  calc listMin (squidCurve 0 1) ≤ 0 := listMin_le hmem0
    _ < 2 := by norm_num
    _ ≤ compute_squid_current 0 finite_transparency_jj_current ((0 : ℝ), 1, 0)
        finite_transparency_jj_current ((0 : ℝ), 1, 0) := squid_at_zero
    _ ≤ listMax (squidCurve 0 1) := le_listMax hmem2

/-- C2 witness: `C2_demo_normalization` at the concrete sweep pair
transparency 0, amplitude 1, whose SQUID-current curve is provably
non-constant. -/
theorem C2_witness :
    (0 : ℝ) ∈ SECOND_JUNCTION_TRANSPARENCIES ∧
    (1 : ℝ) ∈ SECOND_JUNCTION_AMPLITUDES ∧
    listMin (normalizedCurve 0 1) = -(1/2) ∧ listMax (normalizedCurve 0 1) = 1/2 := by
  have ht : (0 : ℝ) ∈ SECOND_JUNCTION_TRANSPARENCIES := by
    rw [SECOND_JUNCTION_TRANSPARENCIES]
    norm_num
  have ha : (1 : ℝ) ∈ SECOND_JUNCTION_AMPLITUDES := by
    rw [SECOND_JUNCTION_AMPLITUDES]
    norm_num
  have h := C2_demo_normalization 0 1 ht ha squidCurve_nonconstant
  exact ⟨ht, ha, h.1, h.2⟩

theorem sum_map_affine (m c : ℝ) (xs : List ℝ) :
    (xs.map (fun x => m * x + c)).sum = m * xs.sum + c * xs.length := by
  induction xs with
  | nil => simp
  | cons y ys ih =>
    simp [ih]
    ring

theorem zipWith_mul_map_self (f : ℝ → ℝ) (xs : List ℝ) :
    List.zipWith (fun a b => a * b) xs (xs.map f) = xs.map (fun x => x * f x) := by
  induction xs with
  | nil => rfl
  | cons y ys ih => simp [ih]

theorem sum_map_x_affine (m c : ℝ) (xs : List ℝ) :
    (xs.map (fun x => x * (m * x + c))).sum =
      m * (xs.map (fun x => x ^ 2)).sum + c * xs.sum := by
  induction xs with
  | nil => simp
  | cons y ys ih =>
    simp [ih]
    ring

/-- C8: on exact linear data `center = m·b + c` over sample points that are
not all equal (nonzero normal-equation denominator), the `--align` regression
recovers slope `m` and intercept `c` exactly, and the annotated misalignment
angle is `arcsin` of the fitted slope expressed in degrees. -/
theorem C8_align_regression (xs : List ℝ) (m c : ℝ)
    (h : (xs.length : ℝ) * (xs.map (fun x => x ^ 2)).sum - xs.sum ^ 2 ≠ 0) :
    polyfit1 xs (xs.map (fun x => m * x + c)) = (m, c) ∧
    alignAngleDeg (polyfit1 xs (xs.map (fun x => m * x + c))).1 =
      Real.arcsin m * (180 / Real.pi) := by
  have hn : (xs.length : ℝ) ≠ 0 := by
    intro h0
    have hlen : xs.length = 0 := by exact_mod_cast h0
    rw [List.length_eq_zero] at hlen
    subst hlen
    simp at h
  have hsy : (xs.map (fun x => m * x + c)).sum = m * xs.sum + c * xs.length :=
    sum_map_affine m c xs
  have hsxy : (List.zipWith (fun a b => a * b) xs (xs.map (fun x => m * x + c))).sum =
      m * (xs.map (fun x => x ^ 2)).sum + c * xs.sum := by
    rw [zipWith_mul_map_self]
    exact sum_map_x_affine m c xs
  have hmval : ((xs.length : ℝ) *
        (List.zipWith (fun a b => a * b) xs (xs.map (fun x => m * x + c))).sum -
        xs.sum * (xs.map (fun x => m * x + c)).sum) /
      ((xs.length : ℝ) * (xs.map (fun x => x ^ 2)).sum - xs.sum ^ 2) = m := by
    rw [hsy, hsxy, div_eq_iff h]
    ring
  have hpair : polyfit1 xs (xs.map (fun x => m * x + c)) = (m, c) := by
    simp only [polyfit1]
    rw [Prod.mk.injEq]
    refine ⟨hmval, ?_⟩
    rw [hmval, hsy]
    field_simp
  refine ⟨hpair, ?_⟩
  rw [hpair]
  rfl

/-- C8 witness: `C8_align_regression` on the concrete points x = 0, 1 with
slope 1/2 and intercept 3. -/
theorem C8_witness :
    polyfit1 [(0 : ℝ), 1] ([(0 : ℝ), 1].map (fun x => (1/2) * x + 3)) = (1/2, 3) :=
  (C8_align_regression [(0 : ℝ), 1] (1/2) 3 (by norm_num)).1

end Shabanipy
